import Mathlib

/-! Verification of the keyword-bingo card generator (`bingo/bingo.py`).

The pure content of the generator is embedded shallowly:

* the external capabilities (Pillow's text measurement, the seeded
  pseudo-random stream of `random.random()`, the wall clock used when no
  seed is given) are parameters of the embedded functions;
* `wrap_text` and the font-shrinking loop of `text_box` are modelled at
  the level of the strings they produce, with the (a priori unbounded)
  shrink loop given an explicit fuel parameter;
* `sorted(words, key=lambda x: random.random())` draws one key per list
  element, in list order, and stably sorts by key; it is modelled by a
  stable insertion sort over index/word pairs;
* `bingo` returns `Except`: the two `raise` sites become errors.
-/

namespace KeywordBingo

/-- Constant `SIZE` of bingo.py: pixel size of each field. -/
def SIZE : Nat := 200

/-- Constant `PADDING` of bingo.py: padding on each side. -/
def PADDING : Nat := 5

/-- Constant `FONT_SIZE` of bingo.py: default (starting) font size. -/
def FONT_SIZE : Nat := 25

/-- A seed value accepted by `random.seed`: an integer or a string. -/
inductive SeedVal where
  | int (n : Int)
  | str (s : String)
deriving Repr, DecidableEq

/-- The `seed` argument of `bingo`: possibly absent (`None`). -/
inductive SeedArg where
  | none
  | val (v : SeedVal)
deriving Repr, DecidableEq

/-- Python truthiness of the `seed` argument, as tested by `if not seed`. -/
def seedTruthy : SeedArg → Bool
  | SeedArg.none => false
  | SeedArg.val (SeedVal.int n) => decide (n ≠ 0)
  | SeedArg.val (SeedVal.str s) => decide (s ≠ "")

/-- Effective seed value: `if not seed: seed = int(time.time())`. -/
def effSeed (timeNow : Nat) (a : SeedArg) : SeedVal :=
  if seedTruthy a then
    match a with
    | SeedArg.none => SeedVal.int timeNow
    | SeedArg.val v => v
  else SeedVal.int timeNow

/-- Python `str(seed)` as interpolated into the footer f-string. -/
def seedStr : SeedVal → String
  | SeedVal.int n => toString n
  | SeedVal.str s => s

/-- Split a character list at every character satisfying `p`, keeping empty
parts (the semantics of Python `str.split(sep)` for one separator). -/
def splitOnPred (p : Char → Bool) : List Char → List (List Char)
  | [] => [[]]
  | ch :: rest =>
    match splitOnPred p rest with
    | [] => [[]]
    | l :: ls => if p ch then [] :: l :: ls else (ch :: l) :: ls

/-- Python `text.split('\n')`. -/
def pySplitLines (text : String) : List String :=
  (splitOnPred (fun ch => ch = '\x0a') text.toList).map List.asString

/-- Python `line.split()`: split on whitespace, dropping empty parts. -/
def pyWords (line : String) : List String :=
  ((splitOnPred (fun ch => ch.isWhitespace) line.toList).map List.asString).filter
    (fun s => !s.isEmpty)

/-- Python `' '.join(ws)`. -/
def joinWords : List String → String
  | [] => ""
  | [w] => w
  | w :: v :: ws => w ++ " " ++ joinWords (v :: ws)

/-- The inner loop of `wrap_text` over the words of one source line:
`cur` is `current_line`; a word is appended while the joined test line
still satisfies `fits`, otherwise `cur` is flushed and the word starts a
new line.  `fits tl` stands for `text_size(draw, tl, font)[0] <= max_width`. -/
def wrapAux (fits : String → Bool) (cur : List String) : List String → List (List String)
  | [] => [cur]
  | w :: rest =>
    if fits (joinWords (cur ++ [w])) then wrapAux fits (cur ++ [w]) rest
    else cur :: wrapAux fits [w] rest

/-- The word groups produced by `wrap_text` for one source line. -/
def wrapGroups (fits : String → Bool) (ws : List String) : List (List String) :=
  wrapAux fits [] ws

/-- Function `wrap_text(text, font, max_width)` of bingo.py: split on newlines, wrap
each line greedily, and return the flat list of joined lines. -/
def wrap_text (fits : String → Bool) (text : String) : List String :=
  ((pySplitLines text).map (fun line => (wrapGroups fits (pyWords line)).map joinWords)).flatten

/-- A well-built line group `g`: every word after the first was
appended only after the joined prefix including it passed the width
test. -/
def GoodGroup (fits : String → Bool) (g : List String) : Prop :=
  ∀ k, 1 ≤ k → k + 1 ≤ g.length → fits (joinWords (g.take (k + 1))) = true

/-- Relation between consecutive line groups: the later group starts with
the word whose addition to the earlier group failed the width test. -/
def NewLineStart (fits : String → Bool) (g g' : List String) : Prop :=
  ∃ w rest, g' = w :: rest ∧ fits (joinWords (g ++ [w])) = false

/-- The width test used inside `text_box`: measured width of `s` at font
size `fs` is at most `maxWidth` pixels. -/
def fitsWidth (measure : String → Int → Nat × Nat) (maxWidth fs : Int) (s : String) : Bool :=
  decide (((measure s fs).1 : Int) ≤ maxWidth)

/-- Wrapping at font size `fs`: `wrap_text(text, font, max_text_width)` with `max_text_width =
size - 2 * padding` and the font at size `fs`. -/
def wrapAtSize (measure : String → Int → Nat × Nat) (size padding fs : Int)
    (text : String) : List String :=
  wrap_text (fitsWidth measure (size - 2 * padding) fs) text

/-- Total block height `sum(text_size(draw, line, font)[1] for line in wrapped_text)`. -/
def totalHeight (measure : String → Int → Nat × Nat) (fs : Int) (lines : List String) : Nat :=
  (lines.map (fun l => (measure l fs).2)).sum

/-- The `while True` font-shrinking loop of `text_box`: wrap at the current
font size, stop when the total height fits within `size - 2 * padding`,
otherwise decrement the font size by one and retry.  The loop in the source
has no lower bound on the font size, hence the explicit fuel. -/
def fitLoop (measure : String → Int → Nat × Nat) (size padding : Int) (text : String) :
    Nat → Int → Option (List String × Int)
  | 0, _ => Option.none
  | Nat.succ fuel, fs =>
    let wrapped := wrapAtSize measure size padding fs text
    if (totalHeight measure fs wrapped : Int) ≤ size - 2 * padding then
      Option.some (wrapped, fs)
    else fitLoop measure size padding text fuel (fs - 1)

/-- The drawing loop at the end of `text_box`: each line is drawn at
`x = max((size - text_width) // 2, padding)` and `y` advances by the
measured line height.  Python `//` is floor division, i.e. `Int.fdiv`. -/
def renderLines (measure : String → Int → Nat × Nat) (size padding fs : Int) :
    Int → List String → List (Int × Int × String)
  | _, [] => []
  | y, l :: rest =>
    let wh := measure l fs
    let x := max (Int.fdiv (size - (wh.1 : Int)) 2) padding
    (x, y, l) :: renderLines measure size padding fs (y + (wh.2 : Int)) rest

/-- Function `text_box(size, padding, text, font_size, font_path)` of bingo.py,
modelled as the list of line-draw operations `(x, y, line)` together with
the final font size; `none` when the shrink loop runs out of fuel. -/
def text_box (measure : String → Int → Nat × Nat) (size padding : Int) (text : String)
    (fontSize : Int) (fuel : Nat) : Option (List (Int × Int × String) × Int) :=
  match fitLoop measure size padding text fuel fontSize with
  | Option.none => Option.none
  | Option.some (lines, fs) =>
    let y0 := Int.fdiv (size - (totalHeight measure fs lines : Int)) 2
    Option.some (renderLines measure size padding fs y0 lines, fs)

/-- Insert `a` into a list before the first element `b` with `le a b`;
together with `sortByKey` this is a stable sort. -/
def insertByKey {α : Type} (le : α → α → Bool) (a : α) : List α → List α
  | [] => [a]
  | b :: t => if le a b then a :: b :: t else b :: insertByKey le a t

/-- Stable insertion sort by `le`. -/
def sortByKey {α : Type} (le : α → α → Bool) : List α → List α
  | [] => []
  | a :: t => insertByKey le a (sortByKey le t)

/-- Model of `sorted(words, key=lambda x: random.random())` of bingo.py: the key
function is evaluated once per element in list order (the element at index
`i` receives `keys i`), and the sort is stable by key. -/
def pyShuffle (keys : Nat → Rat) (words : List String) : List String :=
  (sortByKey (fun a b => decide (keys a.1 ≤ keys b.1))
    ((List.range words.length).zip words)).map Prod.snd

/-- A bingo tile: the decorative star or a word tile. -/
inductive Cell where
  | star
  | word (s : String)
deriving Repr, DecidableEq

/-- The observable content of the generated card: the tile grid (outer
index `i` is the column, inner index `j` the row, as in `grid[i, j]`) and
the footer line with its draw position, from `_bingo` of bingo.py. -/
structure Card where
  rows : Nat
  cols : Nat
  cells : List (List Cell)
  footerLine : String
  footerX : Int
  footerY : Int
  footerH : Nat
deriving Repr, DecidableEq

/-- The tile chosen for position `(i, j)` in `_bingo`: the star at
`(cols // 2, rows // 2)`, otherwise the word `grid[i, j]`, where the grid
is the column-major (`reshape((cols, rows))`) view of the flat word list:
`grid[i, j] = flat[i * rows + j]`. -/
def cellAt (rows cols : Nat) (grid : List String) (i j : Nat) : Cell :=
  if i = cols / 2 ∧ j = rows / 2 then Cell.star
  else Cell.word (grid.getD (i * rows + j) "")

/-- The card assembled by `_bingo` from the shuffled words: the grid is
`np.array(words[:cols*rows]).reshape((cols, rows))`; the footer line
`f"seed: {seed} md5: {hash}"` is drawn at
`(padding, rows * size - padding - int(height * 1.5))` where `height` is
its measured height at font size 12 (`int(1.5 * h) = 3 * h / 2` for a
natural number `h`). -/
def mkCard (measure : String → Int → Nat × Nat) (rows cols : Nat) (shuffled : List String)
    (seed : SeedVal) (hash : String) : Card :=
  let grid := shuffled.take (cols * rows)
  let line := "seed: " ++ seedStr seed ++ " md5: " ++ hash
  let h := (measure line 12).2
  { rows := rows
    cols := cols
    cells := (List.range cols).map (fun i => (List.range rows).map (fun j => cellAt rows cols grid i j))
    footerLine := line
    footerX := (PADDING : Int)
    footerY := ((rows * SIZE : Nat) : Int) - (PADDING : Int) - ((3 * h / 2 : Nat) : Int)
    footerH := h }

/-- The tile at column `i`, row `j` of a card. -/
def Card.cell (c : Card) (i j : Nat) : Cell :=
  (c.cells.getD i []).getD j (Cell.word (""))

/-- The two `raise` sites of `bingo`. -/
inductive BingoError where
  | invalidDimensions (rows cols : Int)
  | insufficientWords (need : Int)
deriving Repr, DecidableEq

/-- Function `bingo(input, output, rows, cols, seed)` of bingo.py, with the file
already read into `words`/`hash` (file I/O is an external collaborator),
the seeded random stream `stream`, the wall clock `timeNow`, and the text
measurement capability `measure` as parameters.  Steps, in source order:
dimension check, effective-seed selection, key-based shuffle, word-count
check, grid assembly. -/
def bingo (stream : SeedVal → Nat → Rat) (measure : String → Int → Nat × Nat)
    (timeNow : Nat) (words : List String) (hash : String)
    (rows cols : Int) (seed : SeedArg) : Except BingoError Card :=
  if rows < 1 ∨ cols < 1 then Except.error (BingoError.invalidDimensions rows cols)
  else
    let s := effSeed timeNow seed
    let shuffled := pyShuffle (stream s) words
    if (shuffled.length : Int) < cols * rows then
      Except.error (BingoError.insufficientWords (cols * rows))
    else Except.ok (mkCard measure rows.toNat cols.toNat shuffled s hash)

/-! Basic lemmas about the shuffle and the card assembly. -/

theorem insertByKey_length {α : Type} (le : α → α → Bool) (a : α) (l : List α) :
    (insertByKey le a l).length = l.length + 1 := by
  induction l with
  | nil => rfl
  | cons b t ih =>
    simp only [insertByKey]
    split <;> simp [ih]

theorem sortByKey_length {α : Type} (le : α → α → Bool) (l : List α) :
    (sortByKey le l).length = l.length := by
  induction l with
  | nil => rfl
  | cons a t ih => simp [sortByKey, insertByKey_length, ih]

theorem pyShuffle_length (keys : Nat → Rat) (words : List String) :
    (pyShuffle keys words).length = words.length := by
  simp [pyShuffle, sortByKey_length]

theorem effSeed_of_truthy (t t' : Nat) (a : SeedArg) (h : seedTruthy a = true) :
    effSeed t a = effSeed t' a := by
  cases a with
  | none => simp [seedTruthy] at h
  | val v => simp [effSeed, h]

theorem bingo_ok_eq (stream : SeedVal → Nat → Rat) (measure : String → Int → Nat × Nat)
    (timeNow : Nat) (words : List String) (hash : String) (rows cols : Int) (seed : SeedArg)
    (hr : 1 ≤ rows) (hc : 1 ≤ cols) (hw : cols.toNat * rows.toNat ≤ words.length) :
    bingo stream measure timeNow words hash rows cols seed =
      Except.ok (mkCard measure rows.toNat cols.toNat
        (pyShuffle (stream (effSeed timeNow seed)) words) (effSeed timeNow seed) hash) := by
  obtain ⟨r, hrows⟩ : ∃ n : Nat, rows = (n : Int) :=
    ⟨rows.toNat, (Int.toNat_of_nonneg (by omega)).symm⟩
  obtain ⟨c, hcols⟩ : ∃ n : Nat, cols = (n : Int) :=
    ⟨cols.toNat, (Int.toNat_of_nonneg (by omega)).symm⟩
  subst hrows hcols
  simp only [Int.toNat_ofNat] at hw
  simp only [bingo]
  rw [if_neg (by omega), if_neg]
  rw [pyShuffle_length]
  exact not_lt.mpr (by exact_mod_cast hw)

theorem getD_range_map {α : Type} (f : Nat → α) (n i : Nat) (d : α) (h : i < n) :
    ((List.range n).map f).getD i d = f i := by
  simp [List.getD_eq_getElem?_getD, List.getElem?_range, h]

theorem mkCard_cell (measure : String → Int → Nat × Nat) (rows cols : Nat)
    (shuffled : List String) (seed : SeedVal) (hash : String) (i j : Nat)
    (hi : i < cols) (hj : j < rows) :
    (mkCard measure rows cols shuffled seed hash).cell i j =
      cellAt rows cols (shuffled.take (cols * rows)) i j := by
  simp only [mkCard, Card.cell]
  rw [getD_range_map _ _ _ _ hi, getD_range_map _ _ _ _ hj]

/-! Claim theorems: validation and determinism. -/

/-- Claim C4: for every request with `rows ≤ 0` or `cols ≤ 0`, card
generation fails with the invalid-dimensions error, regardless of the word
list (the dimension check precedes any use of the words), and yields no
card. -/
theorem bingo_invalid_dimensions (stream : SeedVal → Nat → Rat)
    (measure : String → Int → Nat × Nat) (timeNow : Nat) (words : List String)
    (hash : String) (rows cols : Int) (seed : SeedArg)
    (h : rows ≤ 0 ∨ cols ≤ 0) :
    bingo stream measure timeNow words hash rows cols seed =
      Except.error (BingoError.invalidDimensions rows cols) := by
  simp only [bingo]
  rw [if_pos (by omega)]

/-- Witness for C4 at a concrete input: `rows = 0`, `cols = 5`, a word
list large enough for any positive grid. -/
theorem bingo_invalid_dimensions_witness :
    bingo (fun _ _ => 0) (fun _ _ => (0, 0)) 7 ["a", "b", "c"] "h" 0 5 SeedArg.none =
      Except.error (BingoError.invalidDimensions 0 5) :=
  bingo_invalid_dimensions (fun _ _ => 0) (fun _ _ => (0, 0)) 7 ["a", "b", "c"] "h" 0 5
    SeedArg.none (Or.inl (by decide))

/-- Claim C5: for every request with `rows ≥ 1` and `cols ≥ 1` whose word
list has fewer than `rows * cols` entries, card generation fails with the
insufficient-words error and produces no card. -/
theorem bingo_insufficient_words (stream : SeedVal → Nat → Rat)
    (measure : String → Int → Nat × Nat) (timeNow : Nat) (words : List String)
    (hash : String) (rows cols : Int) (seed : SeedArg)
    (hr : 1 ≤ rows) (hc : 1 ≤ cols) (hw : words.length < rows.toNat * cols.toNat) :
    bingo stream measure timeNow words hash rows cols seed =
      Except.error (BingoError.insufficientWords (cols * rows)) := by
  obtain ⟨r, hrows⟩ : ∃ n : Nat, rows = (n : Int) :=
    ⟨rows.toNat, (Int.toNat_of_nonneg (by omega)).symm⟩
  obtain ⟨c, hcols⟩ : ∃ n : Nat, cols = (n : Int) :=
    ⟨cols.toNat, (Int.toNat_of_nonneg (by omega)).symm⟩
  subst hrows hcols
  simp only [Int.toNat_ofNat] at hw
  simp only [bingo]
  rw [if_neg (by omega), if_pos]
  rw [pyShuffle_length]
  have : (words.length : Int) < (r : Int) * c := by exact_mod_cast hw
  linarith

/-- Witness for C5 at a concrete input: a 2×2 card requested from a
3-word list. -/
theorem bingo_insufficient_words_witness :
    bingo (fun _ _ => 0) (fun _ _ => (0, 0)) 7 ["a", "b", "c"] "h" 2 2
        (SeedArg.val (SeedVal.int 5)) =
      Except.error (BingoError.insufficientWords 4) :=
  bingo_insufficient_words (fun _ _ => 0) (fun _ _ => (0, 0)) 7 ["a", "b", "c"] "h" 2 2
    (SeedArg.val (SeedVal.int 5)) (by decide) (by decide) (by decide)

/-- Claim C1: with a truthy seed and a valid request, two invocations of
the generation with the same word list, dimensions and seed produce the
same shuffled order and the same card, whatever the wall-clock values of
the two invocations; moreover the generation succeeds.  (In the source the
only impure inputs of the pipeline are the seeded random stream — a
function of the effective seed — and `time.time()`, which is consulted
only when the seed is falsy.) -/
theorem bingo_deterministic (stream : SeedVal → Nat → Rat)
    (measure : String → Int → Nat × Nat) (t1 t2 : Nat) (words : List String)
    (hash : String) (rows cols : Int) (seed : SeedArg)
    (hs : seedTruthy seed = true) (hr : 1 ≤ rows) (hc : 1 ≤ cols)
    (hw : cols.toNat * rows.toNat ≤ words.length) :
    pyShuffle (stream (effSeed t1 seed)) words = pyShuffle (stream (effSeed t2 seed)) words ∧
    bingo stream measure t1 words hash rows cols seed =
      bingo stream measure t2 words hash rows cols seed ∧
    ∃ card, bingo stream measure t1 words hash rows cols seed = Except.ok card := by
  have he : effSeed t1 seed = effSeed t2 seed := effSeed_of_truthy t1 t2 seed hs
  refine ⟨by rw [he], ?_, ?_⟩
  · simp only [bingo, he]
  · exact ⟨_, bingo_ok_eq stream measure t1 words hash rows cols seed hr hc hw⟩

/-- Witness for C1 at a concrete input: a 1×1 card from a one-word list
with seed `"42"`, generated at wall-clock times 3 and 8. -/
theorem bingo_deterministic_witness :
    pyShuffle ((fun _ _ => (0 : Rat)) (effSeed 3 (SeedArg.val (SeedVal.str ("42"))))) ["a"] =
      pyShuffle ((fun _ _ => (0 : Rat)) (effSeed 8 (SeedArg.val (SeedVal.str ("42"))))) ["a"] ∧
    bingo (fun _ _ => 0) (fun _ _ => (0, 0)) 3 ["a"] "h" 1 1 (SeedArg.val (SeedVal.str ("42"))) =
      bingo (fun _ _ => 0) (fun _ _ => (0, 0)) 8 ["a"] "h" 1 1 (SeedArg.val (SeedVal.str ("42"))) ∧
    ∃ card, bingo (fun _ _ => 0) (fun _ _ => (0, 0)) 3 ["a"] "h" 1 1
        (SeedArg.val (SeedVal.str ("42"))) = Except.ok card :=
  bingo_deterministic (fun _ _ => 0) (fun _ _ => (0, 0)) 3 8 ["a"] "h" 1 1
    (SeedArg.val (SeedVal.str ("42"))) (by decide) (by decide) (by decide) (by decide)

/-! Claim theorems: grid structure. -/

theorem getD_take (l : List String) (n k : Nat) (d : String) (h : k < n) :
    (l.take n).getD k d = l.getD k d := by
  simp [List.getD_eq_getElem?_getD, List.getElem?_take_of_lt h]

theorem gridIndex_inj (r i j i' j' : Nat) (hj : j < r) (hj' : j' < r)
    (h : i * r + j = i' * r + j') : i = i' ∧ j = j' := by
  have hr : 0 < r := lt_of_le_of_lt (Nat.zero_le j) hj
  have e1 : (i * r + j) / r = i := by
    rw [Nat.add_comm, Nat.add_mul_div_right _ _ hr, Nat.div_eq_of_lt hj, Nat.zero_add]
  have e2 : (i' * r + j') / r = i' := by
    rw [Nat.add_comm, Nat.add_mul_div_right _ _ hr, Nat.div_eq_of_lt hj', Nat.zero_add]
  have e3 : (i * r + j) % r = j := by
    rw [Nat.add_comm, Nat.add_mul_mod_self_right, Nat.mod_eq_of_lt hj]
  have e4 : (i' * r + j') % r = j' := by
    rw [Nat.add_comm, Nat.add_mul_mod_self_right, Nat.mod_eq_of_lt hj']
  exact ⟨by rw [← e1, h, e2], by rw [← e3, h, e4]⟩

theorem gridIndex_lt (r c i j : Nat) (hi : i < c) (hj : j < r) : i * r + j < c * r := by
  calc i * r + j < i * r + r := by omega
    _ = (i + 1) * r := by ring
    _ ≤ c * r := Nat.mul_le_mul_right _ (by omega)

/-- Claim C2: for every valid request, the center coordinate
`(cols / 2, rows / 2)` is inside the grid, a cell is the decorative star
exactly when it is that center (so the star cell is unique and the center
never shows a word), and every other cell shows one of the first
`cols * rows` entries of the shuffled word list, with distinct cells using
distinct entries. -/
theorem bingo_center_star (stream : SeedVal → Nat → Rat)
    (measure : String → Int → Nat × Nat) (timeNow : Nat) (words : List String)
    (hash : String) (rows cols : Int) (seed : SeedArg) (card : Card)
    (hr : 1 ≤ rows) (hc : 1 ≤ cols) (hw : cols.toNat * rows.toNat ≤ words.length)
    (hok : bingo stream measure timeNow words hash rows cols seed = Except.ok card) :
    (cols.toNat / 2 < cols.toNat ∧ rows.toNat / 2 < rows.toNat) ∧
    (∀ i j, i < cols.toNat → j < rows.toNat →
      (card.cell i j = Cell.star ↔ i = cols.toNat / 2 ∧ j = rows.toNat / 2)) ∧
    (∀ i j, i < cols.toNat → j < rows.toNat → ¬(i = cols.toNat / 2 ∧ j = rows.toNat / 2) →
      i * rows.toNat + j < cols.toNat * rows.toNat ∧
      card.cell i j = Cell.word
        ((pyShuffle (stream (effSeed timeNow seed)) words).getD (i * rows.toNat + j) "")) ∧
    (∀ i j i' j', j < rows.toNat → j' < rows.toNat → (i, j) ≠ (i', j') →
      i * rows.toNat + j ≠ i' * rows.toNat + j') := by
  have hcard : card = mkCard measure rows.toNat cols.toNat
      (pyShuffle (stream (effSeed timeNow seed)) words) (effSeed timeNow seed) hash :=
    (Except.ok.inj ((bingo_ok_eq stream measure timeNow words hash rows cols seed
      hr hc hw).symm.trans hok)).symm
  have hr' : 1 ≤ rows.toNat := by omega
  have hc' : 1 ≤ cols.toNat := by omega
  refine ⟨⟨Nat.div_lt_self (by omega) (by omega), Nat.div_lt_self (by omega) (by omega)⟩,
    ?_, ?_, ?_⟩
  · intro i j hi hj
    rw [hcard, mkCard_cell _ _ _ _ _ _ i j hi hj]
    unfold cellAt
    split
    next h => simp [h]
    next h => simp [h]
  · intro i j hi hj hne
    have hb : i * rows.toNat + j < cols.toNat * rows.toNat := gridIndex_lt _ _ _ _ hi hj
    refine ⟨hb, ?_⟩
    rw [hcard, mkCard_cell _ _ _ _ _ _ i j hi hj]
    unfold cellAt
    rw [if_neg hne, getD_take _ _ _ _ hb]
  · intro i j i' j' hj hj' hne heq
    obtain ⟨hi, hjj⟩ := gridIndex_inj rows.toNat i j i' j' hj hj' heq
    exact hne (by rw [hi, hjj])

/-- Witness for C2 at a concrete input: a 1×2 card (rows = 1, cols = 2)
from the word list `["a", "b"]` with seed `"42"`; the constant-zero key
stream leaves the order unchanged. -/
theorem bingo_center_star_witness :
    ((2 : Nat) / 2 < 2 ∧ (1 : Nat) / 2 < 1) ∧
    (∀ i j, i < 2 → j < 1 →
      ((mkCard (fun _ _ => (0, 0)) 1 2 (pyShuffle (fun _ => 0) ["a", "b"])
          (SeedVal.str ("42")) "h").cell i j = Cell.star ↔ i = 2 / 2 ∧ j = 1 / 2)) ∧
    (∀ i j, i < 2 → j < 1 → ¬(i = 2 / 2 ∧ j = 1 / 2) →
      i * 1 + j < 2 * 1 ∧
      (mkCard (fun _ _ => (0, 0)) 1 2 (pyShuffle (fun _ => 0) ["a", "b"])
          (SeedVal.str ("42")) "h").cell i j =
        Cell.word ((pyShuffle (fun _ => 0) ["a", "b"]).getD (i * 1 + j) "")) ∧
    (∀ i j i' j', j < 1 → j' < 1 → (i, j) ≠ (i', j') → i * 1 + j ≠ i' * 1 + j') :=
  bingo_center_star (fun _ _ => 0) (fun _ _ => (0, 0)) 3 ["a", "b"] "h" 1 2
    (SeedArg.val (SeedVal.str ("42")))
    (mkCard (fun _ _ => (0, 0)) 1 2 (pyShuffle (fun _ => 0) ["a", "b"]) (SeedVal.str ("42")) "h")
    (by decide) (by decide) (by decide) (by rfl)

/-- Claim C3: for every valid request, the grid is filled column-major
from the shuffled list — the non-center cell at column `i`, row `j` holds
shuffled entry number `i * rows + j` — and the entry that lands on the
center cell (number `(cols / 2) * rows + rows / 2`) is not reused by any
other cell. -/
theorem bingo_column_major (stream : SeedVal → Nat → Rat)
    (measure : String → Int → Nat × Nat) (timeNow : Nat) (words : List String)
    (hash : String) (rows cols : Int) (seed : SeedArg) (card : Card)
    (hr : 1 ≤ rows) (hc : 1 ≤ cols) (hw : cols.toNat * rows.toNat ≤ words.length)
    (hok : bingo stream measure timeNow words hash rows cols seed = Except.ok card) :
    (∀ i j, i < cols.toNat → j < rows.toNat → ¬(i = cols.toNat / 2 ∧ j = rows.toNat / 2) →
      card.cell i j = Cell.word
        ((pyShuffle (stream (effSeed timeNow seed)) words).getD (i * rows.toNat + j) "")) ∧
    (∀ i j, i < cols.toNat → j < rows.toNat → ¬(i = cols.toNat / 2 ∧ j = rows.toNat / 2) →
      i * rows.toNat + j ≠ (cols.toNat / 2) * rows.toNat + rows.toNat / 2) := by
  have hcard : card = mkCard measure rows.toNat cols.toNat
      (pyShuffle (stream (effSeed timeNow seed)) words) (effSeed timeNow seed) hash :=
    (Except.ok.inj ((bingo_ok_eq stream measure timeNow words hash rows cols seed
      hr hc hw).symm.trans hok)).symm
  constructor
  · intro i j hi hj hne
    have hb : i * rows.toNat + j < cols.toNat * rows.toNat := gridIndex_lt _ _ _ _ hi hj
    rw [hcard, mkCard_cell _ _ _ _ _ _ i j hi hj]
    unfold cellAt
    rw [if_neg hne, getD_take _ _ _ _ hb]
  · intro i j hi hj hne heq
    have hhalf : rows.toNat / 2 < rows.toNat := Nat.div_lt_self (by omega) (by omega)
    exact hne (gridIndex_inj rows.toNat i j (cols.toNat / 2) (rows.toNat / 2) hj hhalf heq)

/-- Witness for C3 at the concrete 1×2 input of the C2 witness. -/
theorem bingo_column_major_witness :
    (∀ i j, i < 2 → j < 1 → ¬(i = 2 / 2 ∧ j = 1 / 2) →
      (mkCard (fun _ _ => (0, 0)) 1 2 (pyShuffle (fun _ => 0) ["a", "b"])
          (SeedVal.str ("42")) "h").cell i j =
        Cell.word ((pyShuffle (fun _ => 0) ["a", "b"]).getD (i * 1 + j) "")) ∧
    (∀ i j, i < 2 → j < 1 → ¬(i = 2 / 2 ∧ j = 1 / 2) →
      i * 1 + j ≠ (2 / 2) * 1 + 1 / 2) :=
  bingo_column_major (fun _ _ => 0) (fun _ _ => (0, 0)) 3 ["a", "b"] "h" 1 2
    (SeedArg.val (SeedVal.str ("42")))
    (mkCard (fun _ _ => (0, 0)) 1 2 (pyShuffle (fun _ => 0) ["a", "b"]) (SeedVal.str ("42")) "h")
    (by decide) (by decide) (by decide) (by rfl)

/-! Claim theorems: footer geometry. -/

theorem bingo_ok_card (stream : SeedVal → Nat → Rat) (measure : String → Int → Nat × Nat)
    (timeNow : Nat) (words : List String) (hash : String) (rows cols : Int) (seed : SeedArg)
    (card : Card)
    (hok : bingo stream measure timeNow words hash rows cols seed = Except.ok card) :
    card = mkCard measure rows.toNat cols.toNat
      (pyShuffle (stream (effSeed timeNow seed)) words) (effSeed timeNow seed) hash := by
  simp only [bingo] at hok
  split at hok
  · exact absurd hok (by simp)
  · split at hok
    · exact absurd hok (by simp)
    · exact (Except.ok.inj hok).symm

/-- Claim C9 (amended): for every request that yields a card, the footer
line's left edge is exactly `PADDING` pixels from the canvas's left edge;
its top edge is placed at `rows * SIZE - PADDING - (3 * h) / 2` where `h`
is the measured footer height at font size 12, so the gap left below the
footer text is `PADDING + h / 2` pixels — equal to `PADDING` only when
`h ≤ 1`, not in general as the claim states. -/
theorem bingo_footer_position (stream : SeedVal → Nat → Rat)
    (measure : String → Int → Nat × Nat) (timeNow : Nat) (words : List String)
    (hash : String) (rows cols : Int) (seed : SeedArg) (card : Card)
    (hok : bingo stream measure timeNow words hash rows cols seed = Except.ok card) :
    card.footerX = (PADDING : Int) ∧
    (card.rows * SIZE : Int) - (card.footerY + card.footerH) =
      (PADDING : Int) + ((card.footerH / 2 : Nat) : Int) := by
  rw [bingo_ok_card stream measure timeNow words hash rows cols seed card hok]
  refine ⟨rfl, ?_⟩
  simp only [mkCard]
  omega

/-- Counterexample to claim C9 as stated: with a measurement capability
reporting a 12-pixel-high footer line, the gap between the bottom of the
footer text and the canvas's bottom edge is `11` pixels, not `PADDING = 5`:
the footer text does not sit `PADDING` pixels above the bottom edge. -/
theorem bingo_footer_position_counterexample :
    (bingo (fun _ _ => 0) (fun _ _ => (0, 12)) 0 ["a"] "" 1 1
        (SeedArg.val (SeedVal.str ("42")))).map
      (fun c => ((c.rows * SIZE : Int) - (c.footerY + c.footerH), (PADDING : Int))) =
      Except.ok ((11 : Int), (5 : Int)) ∧ (11 : Int) ≠ 5 :=
  ⟨by rfl, by decide⟩

/-- Witness for the amended C9 at the same concrete input. -/
theorem bingo_footer_position_witness :
    (mkCard (fun _ _ => (0, 12)) 1 1 (pyShuffle (fun _ => 0) ["a"]) (SeedVal.str ("42"))
        "").footerX = (PADDING : Int) ∧
    ((mkCard (fun _ _ => (0, 12)) 1 1 (pyShuffle (fun _ => 0) ["a"]) (SeedVal.str ("42"))
          "").rows * SIZE : Int) -
        ((mkCard (fun _ _ => (0, 12)) 1 1 (pyShuffle (fun _ => 0) ["a"]) (SeedVal.str ("42"))
          "").footerY +
         (mkCard (fun _ _ => (0, 12)) 1 1 (pyShuffle (fun _ => 0) ["a"]) (SeedVal.str ("42"))
          "").footerH) =
      (PADDING : Int) +
        (((mkCard (fun _ _ => (0, 12)) 1 1 (pyShuffle (fun _ => 0) ["a"]) (SeedVal.str ("42"))
          "").footerH / 2 : Nat) : Int) :=
  bingo_footer_position (fun _ _ => 0) (fun _ _ => (0, 12)) 0 ["a"] "" 1 1
    (SeedArg.val (SeedVal.str ("42")))
    (mkCard (fun _ _ => (0, 12)) 1 1 (pyShuffle (fun _ => 0) ["a"]) (SeedVal.str ("42")) "")
    (by rfl)

/-! Claim theorems: text fitting. -/

theorem fitLoop_some (measure : String → Int → Nat × Nat) (size padding : Int) (text : String)
    (fuel : Nat) :
    ∀ (fs fsOut : Int) (lines : List String),
      fitLoop measure size padding text fuel fs = Option.some (lines, fsOut) →
      lines = wrapAtSize measure size padding fsOut text ∧
      (totalHeight measure fsOut lines : Int) ≤ size - 2 * padding := by
  induction fuel with
  | zero => intro fs fsOut lines h; exact absurd h (by simp [fitLoop])
  | succ fuel ih =>
    intro fs fsOut lines h
    simp only [fitLoop] at h
    split at h
    next hcond =>
      obtain ⟨h1, h2⟩ := Prod.mk.injEq _ _ _ _ ▸ Option.some.inj h
      subst h1 h2
      exact ⟨rfl, hcond⟩
    next hcond => exact ih _ _ _ h

theorem renderLines_left_margin (measure : String → Int → Nat × Nat)
    (size padding fs : Int) :
    ∀ (lines : List String) (y : Int) (op : Int × Int × String),
      op ∈ renderLines measure size padding fs y lines → padding ≤ op.1 := by
  intro lines
  induction lines with
  | nil => intro y op h; simp [renderLines] at h
  | cons l rest ih =>
    intro y op h
    simp only [renderLines] at h
    rcases List.mem_cons.mp h with h1 | h2
    · rw [h1]; exact le_max_right _ _
    · exact ih _ _ h2

/-- Claim C6: whenever `text_box` returns, the total measured pixel height
of the wrapped text block at the final font size is at most
`size - 2 * padding`, and every rendered line's left x-coordinate is at
least `padding` (the `max(…, padding)` clamp). -/
theorem text_box_contained (measure : String → Int → Nat × Nat) (size padding : Int)
    (text : String) (fontSize : Int) (fuel : Nat) (ops : List (Int × Int × String))
    (fsOut : Int)
    (hok : text_box measure size padding text fontSize fuel = Option.some (ops, fsOut)) :
    (totalHeight measure fsOut (wrapAtSize measure size padding fsOut text) : Int) ≤
      size - 2 * padding ∧
    ∀ op ∈ ops, padding ≤ op.1 := by
  unfold text_box at hok
  cases hfit : fitLoop measure size padding text fuel fontSize with
  | none => rw [hfit] at hok; exact absurd hok (by simp)
  | some res =>
    obtain ⟨lines, fs⟩ := res
    rw [hfit] at hok
    simp only [] at hok
    injection hok with hok'
    injection hok' with h1 h2
    obtain ⟨hl, hh⟩ := fitLoop_some measure size padding text fuel fontSize fs lines hfit
    subst h2
    constructor
    · rw [← hl]; exact hh
    · intro op hop
      rw [← h1] at hop
      exact renderLines_left_margin measure size padding fs lines _ op hop

/-- Witness for C6 at a concrete input: a 10-pixel box with 1-pixel
padding, text `"hi"`, length-as-width and zero-height measurement. -/
theorem text_box_contained_witness :
    (totalHeight (fun s _ => (s.length, 0)) 25
        (wrapAtSize (fun s _ => (s.length, 0)) 10 1 25 ("hi")) : Int) ≤ 10 - 2 * 1 ∧
    ∀ op ∈ [((4 : Int), (5 : Int), "hi")], (1 : Int) ≤ op.1 :=
  text_box_contained (fun s _ => (s.length, 0)) 10 1 ("hi") 25 1
    [((4 : Int), (5 : Int), "hi")] 25 (by decide)

theorem fitLoop_terminates_aux (measure : String → Int → Nat × Nat) (size padding : Int)
    (text : String) (fsFit : Int)
    (hfit : (totalHeight measure fsFit (wrapAtSize measure size padding fsFit text) : Int) ≤
      size - 2 * padding) :
    ∀ (n : Nat) (fs0 : Int), fsFit ≤ fs0 → (fs0 - fsFit).toNat ≤ n →
      ∃ (lines : List String) (fs : Int), fsFit ≤ fs ∧
        fitLoop measure size padding text (n + 1) fs0 = Option.some (lines, fs) := by
  intro n
  induction n with
  | zero =>
    intro fs0 hle hb
    have heq : fs0 = fsFit := by omega
    subst heq
    refine ⟨wrapAtSize measure size padding fs0 text, fs0, le_refl _, ?_⟩
    simp only [fitLoop]
    rw [if_pos hfit]
  | succ n ih =>
    intro fs0 hle hb
    by_cases hc : (totalHeight measure fs0
        (wrapAtSize measure size padding fs0 text) : Int) ≤ size - 2 * padding
    · refine ⟨wrapAtSize measure size padding fs0 text, fs0, hle, ?_⟩
      simp only [fitLoop]
      rw [if_pos hc]
    · have hne : fs0 ≠ fsFit := fun he => hc (he ▸ hfit)
      obtain ⟨lines, fs, h1, h2⟩ := ih (fs0 - 1) (by omega) (by omega)
      refine ⟨lines, fs, h1, ?_⟩
      simp only [fitLoop]
      rw [if_neg hc]
      exact h2

/-- Claim C7 (amended): the font-shrinking loop decrements the font size
by exactly one per iteration (visible in the recursion of `fitLoop`), and
it terminates whenever some font size `fsFit` at most the starting size
makes the wrapped text height fit, doing so within
`(fs0 - fsFit).toNat + 1` iterations.  The source has no font-size floor,
so without such a fitting size the loop never returns (see the
counterexample). -/
theorem fitLoop_terminates (measure : String → Int → Nat × Nat) (size padding : Int)
    (text : String) (fs0 fsFit : Int) (hle : fsFit ≤ fs0)
    (hfit : (totalHeight measure fsFit (wrapAtSize measure size padding fsFit text) : Int) ≤
      size - 2 * padding) :
    ∃ (lines : List String) (fs : Int), fsFit ≤ fs ∧
      fitLoop measure size padding text ((fs0 - fsFit).toNat + 1) fs0 =
        Option.some (lines, fs) :=
  fitLoop_terminates_aux measure size padding text fsFit hfit ((fs0 - fsFit).toNat) fs0 hle
    (le_refl _)

/-- Witness for the amended C7 at a concrete input where the text fits at
the starting size. -/
theorem fitLoop_terminates_witness :
    ∃ (lines : List String) (fs : Int), (25 : Int) ≤ fs ∧
      fitLoop (fun _ _ => (0, 0)) 10 1 ("hi") (((25 : Int) - 25).toNat + 1) 25 =
        Option.some (lines, fs) :=
  fitLoop_terminates (fun _ _ => (0, 0)) 10 1 ("hi") 25 25 (by decide) (by decide)

theorem fitLoop_const_cond (fs : Int) :
    ¬ ((totalHeight (fun _ _ => ((0 : Nat), (2 : Nat))) fs
        (wrapAtSize (fun _ _ => ((0 : Nat), (2 : Nat))) 3 1 fs ("")) : Int) ≤ 3 - 2 * 1) := by
  have h1 : wrapAtSize (fun _ _ => ((0 : Nat), (2 : Nat))) 3 1 fs ("") = [""] := rfl
  rw [h1]
  norm_num [totalHeight]

theorem fitLoop_const_none : ∀ (fuel : Nat) (fs : Int),
    fitLoop (fun _ _ => ((0 : Nat), (2 : Nat))) 3 1 ("") fuel fs = Option.none := by
  intro fuel
  induction fuel with
  | zero => intro fs; rfl
  | succ fuel ih =>
    intro fs
    simp only [fitLoop]
    rw [if_neg (fitLoop_const_cond fs)]
    exact ih _

/-- Counterexample to claim C7 as stated: the shrink loop of `text_box`
has no font-size floor in the source, and it does not terminate for every
input — with a measurement capability reporting every line as 2 pixels
high, a 3-pixel box with 1-pixel padding is never fitted in any number of
iterations, so text-box rendering is not a total function. -/
theorem text_box_no_floor_counterexample :
    ¬ ∃ (fuel : Nat) (r : List (Int × Int × String) × Int),
        text_box (fun _ _ => (0, 2)) 3 1 ("") 25 fuel = Option.some r := by
  rintro ⟨fuel, r, h⟩
  unfold text_box at h
  rw [fitLoop_const_none fuel 25] at h
  exact absurd h (by simp)

/-! Claim theorems: greedy wrapping. -/

theorem wrapAux_join (fits : String → Bool) :
    ∀ (ws cur : List String), (wrapAux fits cur ws).flatten = cur ++ ws := by
  intro ws
  induction ws with
  | nil => intro cur; simp [wrapAux]
  | cons w rest ih =>
    intro cur
    simp only [wrapAux]
    split
    · rw [ih]; simp
    · simp only [List.flatten_cons]
      rw [ih]
      simp

theorem wrapAux_head (fits : String → Bool) :
    ∀ (ws cur : List String), ∃ t gs, wrapAux fits cur ws = (cur ++ t) :: gs := by
  intro ws
  induction ws with
  | nil => intro cur; exact ⟨[], [], by simp [wrapAux]⟩
  | cons w rest ih =>
    intro cur
    simp only [wrapAux]
    split
    · obtain ⟨t, gs, h⟩ := ih (cur ++ [w])
      exact ⟨[w] ++ t, gs, by rw [h]; simp⟩
    · exact ⟨[], wrapAux fits [w] rest, by simp⟩

theorem wrapAux_good (fits : String → Bool) :
    ∀ (ws cur : List String), GoodGroup fits cur →
      ∀ g ∈ wrapAux fits cur ws, GoodGroup fits g := by
  intro ws
  induction ws with
  | nil =>
    intro cur hcur g hg
    simp [wrapAux] at hg
    rw [hg]
    exact hcur
  | cons w rest ih =>
    intro cur hcur g hg
    simp only [wrapAux] at hg
    split at hg
    next hfits =>
      refine ih (cur ++ [w]) ?_ g hg
      intro k h1 h2
      simp only [List.length_append, List.length_cons, List.length_nil] at h2
      rcases Nat.lt_or_ge (k + 1) (cur.length + 1) with hlt | hge
      · rw [List.take_append_of_le_length (by omega)]
        exact hcur k h1 (by omega)
      · have hk : k + 1 = cur.length + 1 := by omega
        have hlen : (cur ++ [w]).length = cur.length + 1 := by simp
        rw [hk, ← hlen, List.take_length]
        exact hfits
    next hfits =>
      rcases List.mem_cons.mp hg with h1 | h2
      · rw [h1]; exact hcur
      · refine ih [w] ?_ g h2
        intro k h1 h2
        simp only [List.length_cons, List.length_nil] at h2
        omega

theorem wrapAux_chain (fits : String → Bool) :
    ∀ (ws cur : List String), List.Chain' (NewLineStart fits) (wrapAux fits cur ws) := by
  intro ws
  induction ws with
  | nil => intro cur; simp [wrapAux]
  | cons w rest ih =>
    intro cur
    simp only [wrapAux]
    split
    next hfits => exact ih (cur ++ [w])
    next hfits =>
      rw [List.chain'_cons']
      refine ⟨?_, ih [w]⟩
      intro y hy
      obtain ⟨t, gs, h⟩ := wrapAux_head fits rest [w]
      rw [h] at hy
      simp only [List.head?_cons, Option.mem_def, Option.some.injEq] at hy
      refine ⟨w, t, by rw [← hy]; rfl, Bool.eq_false_iff.mpr hfits⟩

/-- Claim C8: for every text and font size, `wrap_text` splits the text on
existing newlines and packs words greedily: per source line, the produced
groups concatenate back to the line's words in order; a word was appended
to a group only when the measured width of the joined line including it
was at most `size - 2 * padding`; and each new group after the first
begins with exactly the word whose addition to the previous group would
have overflowed. -/
theorem wrap_text_greedy (measure : String → Int → Nat × Nat) (size padding fs : Int)
    (text : String) :
    wrapAtSize measure size padding fs text =
      ((pySplitLines text).map (fun line =>
        (wrapGroups (fitsWidth measure (size - 2 * padding) fs) (pyWords line)).map
          joinWords)).flatten ∧
    ∀ l ∈ pySplitLines text,
      (wrapGroups (fitsWidth measure (size - 2 * padding) fs) (pyWords l)).flatten =
          pyWords l ∧
      (∀ g ∈ wrapGroups (fitsWidth measure (size - 2 * padding) fs) (pyWords l),
        GoodGroup (fitsWidth measure (size - 2 * padding) fs) g) ∧
      List.Chain' (NewLineStart (fitsWidth measure (size - 2 * padding) fs))
        (wrapGroups (fitsWidth measure (size - 2 * padding) fs) (pyWords l)) := by
  refine ⟨rfl, ?_⟩
  intro l _
  refine ⟨wrapAux_join _ _ _, ?_, wrapAux_chain _ _ _⟩
  refine wrapAux_good _ _ _ ?_
  intro k h1 h2
  simp only [List.length_nil] at h2
  omega

theorem joinWords_length_mem (v : String) :
    ∀ (g : List String), v ∈ g → v.length ≤ (joinWords g).length := by
  intro g
  induction g with
  | nil => intro h; simp at h
  | cons a t ih =>
    intro h
    cases t with
    | nil =>
      simp only [List.mem_cons, List.not_mem_nil, or_false] at h
      rw [h]
      exact le_refl _
    | cons b t2 =>
      rcases List.mem_cons.mp h with h1 | h2
      · rw [h1]
        simp only [joinWords, String.length_append]
        omega
      · have := ih h2
        simp only [joinWords, String.length_append]
        simp only [joinWords] at this
        omega

/-- Claim C10: the wrapping step never splits a word — per source line the
groups concatenate back to the words in order; every output line holding
two or more words measures at most `maxWidth` pixels; and (for a
monotone measurement, where a line that fits has each of its member words
fit) a word `w` that is itself wider than `maxWidth` always ends up alone
on its own line, so that line's width exceeds `maxWidth` and horizontal
overflow is possible. -/
theorem wrap_no_word_split (measure : String → Int → Nat × Nat) (maxWidth fs : Int)
    (ws : List String) (w : String)
    (hmono : ∀ (v : String) (g : List String), v ∈ g →
      fitsWidth measure maxWidth fs (joinWords g) = true →
      fitsWidth measure maxWidth fs (joinWords [v]) = true)
    (hw : fitsWidth measure maxWidth fs (joinWords [w]) = false) :
    (wrapGroups (fitsWidth measure maxWidth fs) ws).flatten = ws ∧
    (∀ g ∈ wrapGroups (fitsWidth measure maxWidth fs) ws,
      2 ≤ g.length → fitsWidth measure maxWidth fs (joinWords g) = true) ∧
    (∀ g ∈ wrapGroups (fitsWidth measure maxWidth fs) ws, w ∈ g → g = [w]) ∧
    (w ∈ ws → [w] ∈ wrapGroups (fitsWidth measure maxWidth fs) ws) := by
  have hgood : ∀ g ∈ wrapGroups (fitsWidth measure maxWidth fs) ws,
      GoodGroup (fitsWidth measure maxWidth fs) g := by
    refine wrapAux_good _ _ _ ?_
    intro k h1 h2
    simp only [List.length_nil] at h2
    omega
  have hjoin : (wrapGroups (fitsWidth measure maxWidth fs) ws).flatten = ws :=
    wrapAux_join _ _ _
  have hfull : ∀ g ∈ wrapGroups (fitsWidth measure maxWidth fs) ws,
      2 ≤ g.length → fitsWidth measure maxWidth fs (joinWords g) = true := by
    intro g hg h2
    have := hgood g hg (g.length - 1) (by omega) (by omega)
    rw [show g.length - 1 + 1 = g.length by omega, List.take_length] at this
    exact this
  have halone : ∀ g ∈ wrapGroups (fitsWidth measure maxWidth fs) ws, w ∈ g → g = [w] := by
    intro g hg hwg
    obtain ⟨n, hget⟩ := List.mem_iff_get.mp hwg
    rcases Nat.lt_or_ge g.length 2 with hlen | hlen
    · have h1 : g.length = 1 := by
        have hne : g ≠ [] := List.ne_nil_of_mem hwg
        have := List.length_pos.mpr hne
        omega
      obtain ⟨a, ha⟩ := List.length_eq_one.mp h1
      rw [ha]
      rw [ha] at hwg
      simp only [List.mem_cons, List.not_mem_nil, or_false] at hwg
      rw [hwg]
    · exfalso
      have hnlt : n.1 < g.length := n.isLt
      have hk1 : 1 ≤ max n.1 1 := le_max_right _ _
      have hk2 : max n.1 1 + 1 ≤ g.length := by omega
      have hfit := hgood g hg (max n.1 1) hk1 hk2
      have hmem : w ∈ g.take (max n.1 1 + 1) :=
        List.mem_take_iff_getElem.mpr ⟨n.1, by omega, hget⟩
      have hres := hmono w (g.take (max n.1 1 + 1)) hmem hfit
      rw [hres] at hw
      exact absurd hw (by simp)
  refine ⟨hjoin, hfull, halone, ?_⟩
  intro hws
  have : w ∈ (wrapGroups (fitsWidth measure maxWidth fs) ws).flatten := by rw [hjoin]; exact hws
  obtain ⟨g, hg, hwg⟩ := List.mem_flatten.mp this
  have := halone g hg hwg
  rw [← this]
  exact hg

/-- Witness for C10 at a concrete input: length-as-width measurement,
3-pixel budget, and the overlong word `"abcd"` among `["ab", "abcd", "a"]`;
the monotonicity hypothesis holds because a word is never longer than a
joined line containing it. -/
theorem wrap_no_word_split_witness :
    (wrapGroups (fitsWidth (fun s _ => (s.length, 0)) 3 25) ["ab", "abcd", "a"]).flatten =
      ["ab", "abcd", "a"] ∧
    (∀ g ∈ wrapGroups (fitsWidth (fun s _ => (s.length, 0)) 3 25) ["ab", "abcd", "a"],
      2 ≤ g.length → fitsWidth (fun s _ => (s.length, 0)) 3 25 (joinWords g) = true) ∧
    (∀ g ∈ wrapGroups (fitsWidth (fun s _ => (s.length, 0)) 3 25) ["ab", "abcd", "a"],
      "abcd" ∈ g → g = ["abcd"]) ∧
    ("abcd" ∈ ["ab", "abcd", "a"] →
      ["abcd"] ∈ wrapGroups (fitsWidth (fun s _ => (s.length, 0)) 3 25) ["ab", "abcd", "a"]) :=
  wrap_no_word_split (fun s _ => (s.length, 0)) 3 25 ["ab", "abcd", "a"] "abcd"
    (fun v g hv hfit => by
      have h1 : ((joinWords g).length : Int) ≤ 3 := by
        simpa [fitsWidth] using hfit
      have h2 := joinWords_length_mem v g hv
      simp only [fitsWidth, joinWords, decide_eq_true_eq]
      omega)
    (by decide)

end KeywordBingo
